import Mathlib

/-!
Shallow embedding of the simulation core of `src/server.js` (a multiplayer
snake game server).  Pure data is translated directly; the JS `Map` of
players keyed by socket id is modelled as a `List Player` in insertion
order (a JS `Map` has unique keys, so id-keyed lookups and updates below
match mutation of the unique entry object).  `Math.random()` draws are
modelled as explicit streams of natural numbers, reduced modulo the bound
exactly as `randomInt(max) = floor(random()*max)` produces a value in
`[0, max)`.  The JS string key `"x,y"` produced by `posKey` is injective
on integer coordinates, so the occupancy map and occupied set are keyed by
positions directly.
-/

namespace Snake

/-- Grid width, `GRID_COLS = 40` in `server.js`. -/
def GRID_COLS : Nat := 40

/-- Grid height, `GRID_ROWS = 30` in `server.js`. -/
def GRID_ROWS : Nat := 30

/-- `INITIAL_LENGTH = 4` in `server.js`. -/
def INITIAL_LENGTH : Nat := 4

/-- `FOOD_TARGET = 5` in `server.js`. -/
def FOOD_TARGET : Nat := 5

/-- `MAX_SPAWN_ATTEMPTS = 120` in `server.js`. -/
def MAX_SPAWN_ATTEMPTS : Nat := 120

/-- A grid cell; JS positions are plain `{x, y}` records of (possibly
negative) integers. -/
structure Pos where
  x : Int
  y : Int
deriving DecidableEq, Repr, Inhabited

/-- The four direction keys of the `DIRECTIONS` table, in insertion order
`up, right, down, left`. -/
inductive Dir where
  | up
  | right
  | down
  | left
deriving DecidableEq, Repr, Inhabited

/-- The unit delta each entry of `DIRECTIONS` maps to. -/
def delta : Dir → Pos
  | .up => ⟨0, -1⟩
  | .right => ⟨1, 0⟩
  | .down => ⟨0, 1⟩
  | .left => ⟨-1, 0⟩

/-- `DIRECTIONS[key]`: lookup of a direction payload string. -/
def DIRECTIONS : String → Option Dir
  | "up" => some .up
  | "right" => some .right
  | "down" => some .down
  | "left" => some .left
  | _ => none

/-- `isOpposite(a, b)` for two non-null directions: deltas sum to zero
componentwise.  (The JS truthiness guards on `a` and `b` are handled at
the call sites, which check for `null` before calling.) -/
def isOpposite (a b : Dir) : Bool :=
  decide ((delta a).x + (delta b).x = 0 ∧ (delta a).y + (delta b).y = 0)

/-- Death reasons attached to a move / kill event. -/
inductive Reason where
  | wall
  | body
  | head
  | collision
deriving DecidableEq, Repr

/-- One entry of the `players` map.  Presentation-only fields (`name`,
`color`, `socket`, `createdAt`, `spawnedAt`) are not consulted by the
simulation core and are omitted. -/
structure Player where
  id : Nat
  alive : Bool
  snake : List Pos
  direction : Option Dir
  pendingDirection : Option Dir
  score : Nat
  best : Nat
  deaths : Nat
  lastInputAt : Nat
deriving DecidableEq, Repr

/-- A planned move produced by `createMove`.  The JS object holds a
reference to the player; we keep the player's id and look the player up
in the (unchanged-during-resolution) players list. -/
structure Move where
  playerId : Nat
  direction : Dir
  nextHead : Pos
  willEat : Bool
  dead : Bool
  reason : Option Reason
deriving DecidableEq, Repr

/-- One value of the `bodyOccupancy` map: `{ playerId, index }`. -/
structure Occ where
  playerId : Nat
  index : Nat
deriving DecidableEq, Repr

/-- The mutable world state: the `players` map (insertion order) and the
`foods` array. -/
structure World where
  players : List Player
  foods : List Pos
deriving DecidableEq, Repr

/-- The wall test of the wall pass:
`x < 0 || x >= GRID_COLS || y < 0 || y >= GRID_ROWS`. -/
def outOfBounds (c : Pos) : Bool :=
  decide (c.x < 0) || decide ((GRID_COLS : Int) ≤ c.x) ||
  decide (c.y < 0) || decide ((GRID_ROWS : Int) ≤ c.y)

/-- Propositional form of being inside `[0,GRID_COLS) × [0,GRID_ROWS)`. -/
def inBounds (c : Pos) : Prop :=
  0 ≤ c.x ∧ c.x < (GRID_COLS : Int) ∧ 0 ≤ c.y ∧ c.y < (GRID_ROWS : Int)

instance (c : Pos) : Decidable (inBounds c) := by
  unfold inBounds; infer_instance

/-- `chooseDirection(player)`. -/
def chooseDirection (p : Player) : Dir :=
  match p.pendingDirection with
  | none => p.direction.getD .right
  | some pend =>
    match p.direction with
    | none => pend
    | some d => if isOpposite d pend then d else pend

/-- `createMove(player)`: plan the next head from the chosen direction and
test the (pre-tick) food set.  `player.snake[0]` is only read for alive
players, whose bodies are nonempty; the default never matters there. -/
def createMove (foods : List Pos) (p : Player) : Move :=
  let dir := chooseDirection p
  let head := p.snake.headD ⟨0, 0⟩
  let nextHead : Pos := ⟨head.x + (delta dir).x, head.y + (delta dir).y⟩
  { playerId := p.id
    direction := dir
    nextHead := nextHead
    willEat := foods.any (fun f => decide (f = nextHead))
    dead := false
    reason := none }

/-- The per-snake `snake.forEach((segment, index) => map.set(...))` writes,
as an association list in write order. -/
def snakeEntries (pid : Nat) : Nat → List Pos → List (Pos × Occ)
  | _, [] => []
  | i, c :: rest => (c, ⟨pid, i⟩) :: snakeEntries pid (i + 1) rest

/-- All `map.set` writes performed by `buildBodyOccupancy`, in order:
players in map order, segments in index order; dead players are skipped. -/
def occEntries (ps : List Player) : List (Pos × Occ) :=
  (ps.filter (·.alive)).flatMap (fun p => snakeEntries p.id 0 p.snake)

/-- `buildBodyOccupancy()` as a lookup function: a JS `Map` keeps the last
write for a key, i.e. the last matching entry of the write list. -/
def buildBodyOccupancy (ps : List Player) (c : Pos) : Option Occ :=
  ((occEntries ps).reverse.find? (fun e => decide (e.1 = c))).map (·.2)

/-- The wall pass (first `liveMoves.forEach` of `tick`). -/
def wallPass (ms : List Move) : List Move :=
  ms.map (fun m =>
    if m.dead then m
    else if outOfBounds m.nextHead then { m with dead := true, reason := some .wall }
    else m)

/-- Mark a move dead with reason `body`. -/
def markBody (m : Move) : Move :=
  { m with dead := true, reason := some .body }

/-- Mark a move dead with reason `head`. -/
def markHead (m : Move) : Move :=
  { m with dead := true, reason := some .head }

/-- The body-pass check for one move, given the current state `cur` of all
moves (the JS `moveById` map resolves to the same mutable move objects, so
`occupantMove.dead` is read at evaluation time).  The occupant vacates iff
its own move is (currently) alive, does not eat, and the occupied segment
is its tail; the self-occupant and other-occupant branches of the JS code
behave identically. -/
def bodyCheck (ps : List Player) (occ : Pos → Option Occ) (cur : List Move)
    (m : Move) : Move :=
  if m.dead then m
  else
    match occ m.nextHead with
    | none => m
    | some o =>
      let occupantPlayer := ps.find? (fun q => decide (q.id = o.playerId))
      let occupantMove := cur.find? (fun mv => decide (mv.playerId = o.playerId))
      let isTail : Bool :=
        match occupantPlayer with
        | some q => decide ((o.index : Int) = (q.snake.length : Int) - 1)
        | none => false
      let occupantWillVacate : Bool :=
        match occupantMove with
        | some om => !om.dead && !om.willEat && isTail
        | none => false
      if occupantWillVacate then m else markBody m

/-- The `occupantWillVacate` boolean of the body-pass check, as a
function of the occupancy entry, the players list and the current move
states. -/
def vacateB (ps : List Player) (cur : List Move) (o : Occ) : Bool :=
  match cur.find? (fun mv => decide (mv.playerId = o.playerId)) with
  | some om => !om.dead && !om.willEat &&
      (match ps.find? (fun q => decide (q.id = o.playerId)) with
       | some q => decide ((o.index : Int) = (q.snake.length : Int) - 1)
       | none => false)
  | none => false

/-- The body pass (second `liveMoves.forEach`): moves are processed in
list order, each check seeing the already-updated prefix. -/
def bodyPassAux (ps : List Player) (occ : Pos → Option Occ) :
    List Move → List Move → List Move
  | done, [] => done
  | done, m :: rest =>
    bodyPassAux ps occ (done ++ [bodyCheck ps occ (done ++ m :: rest) m]) rest

/-- The body pass on a whole move list. -/
def bodyPass (ps : List Player) (occ : Pos → Option Occ) (ms : List Move) :
    List Move :=
  bodyPassAux ps occ [] ms

/-- The hypothetical order-independent body pass in which every vacancy
decision is taken against the fixed post-wall-pass snapshot of the moves
(what the spec's order-independence rationale describes). -/
def bodyPassSnapshot (ps : List Player) (occ : Pos → Option Occ)
    (ms : List Move) : List Move :=
  ms.map (fun m => bodyCheck ps occ ms m)

/-- `headOccupancy.get(key)`: how many currently-alive moves target `c`. -/
def headCount (ms : List Move) (c : Pos) : Nat :=
  ms.countP (fun m => !m.dead && decide (m.nextHead = c))

/-- The head pass: every cell claimed by two or more still-alive moves
kills *every* move targeting it (the inner `forEach` does not skip moves
that are already dead), reason `head`. -/
def headPass (ms : List Move) : List Move :=
  ms.map (fun m => if 2 ≤ headCount ms m.nextHead then markHead m else m)

/-- The full three-pass collision resolver of `tick`. -/
def resolveMoves (ps : List Player) (occ : Pos → Option Occ)
    (ms : List Move) : List Move :=
  headPass (bodyPass ps occ (wallPass ms))

/-- `killPlayer(player)` (event emission omitted). -/
def killPlayer (p : Player) : Player :=
  if !p.alive then p
  else
    { p with
      alive := false
      snake := []
      direction := none
      pendingDirection := none
      score := 0
      deaths := p.deaths + 1 }

/-- Committing one surviving move on its player: set facing, prepend the
new head, then either grow-and-score (eat) or drop the tail. -/
def advancePlayer (m : Move) (p : Player) : Player :=
  let p1 :=
    { p with
      direction := some m.direction
      pendingDirection := some m.direction
      snake := m.nextHead :: p.snake }
  if m.willEat then
    { p1 with score := p1.score + 1, best := max p1.best p1.snake.length }
  else
    { p1 with snake := p1.snake.dropLast }

/-- Commit of one resolved move on its player. -/
def applyMove (m : Move) (p : Player) : Player :=
  if m.dead then killPlayer p else advancePlayer m p

/-- Commit of one resolved move on the world: update the move's player
(the unique map entry with its id) and, on an eat, remove the first food
entry at the eaten cell (`findIndex` + `splice`). -/
def commitStep (w : World) (m : Move) : World :=
  { players := w.players.map (fun p => if p.id = m.playerId then applyMove m p else p)
    foods :=
      if !m.dead && m.willEat then
        w.foods.eraseP (fun f => decide (f = m.nextHead))
      else w.foods }

/-- The commit `forEach` of `tick`, in move order. -/
def commitMoves (ms : List Move) (w : World) : World :=
  ms.foldl commitStep w

/-- `getOccupiedSet()`: all segments of alive snakes plus all food cells
(as a membership list; the JS string keys are injective on positions). -/
def occupiedCells (w : World) : List Pos :=
  ((w.players.filter (·.alive)).flatMap (·.snake)) ++ w.foods

/-- `spawnFood()` attempt loop: `rnd k` yields the two `randomInt` draws
of attempt `k`. -/
def spawnFoodAux (rnd : Nat → Nat × Nat) (w : World) : Nat → Nat → Option Pos
  | 0, _ => none
  | fuel + 1, k =>
    let c : Pos := ⟨((rnd k).1 % GRID_COLS : Nat), ((rnd k).2 % GRID_ROWS : Nat)⟩
    if c ∈ occupiedCells w then spawnFoodAux rnd w fuel (k + 1)
    else some c

/-- `spawnFood()`: up to `GRID_COLS * GRID_ROWS` random candidate cells,
returning the first one not in the occupied set, else `none`. -/
def spawnFood (rnd : Nat → Nat × Nat) (w : World) : Option Pos :=
  spawnFoodAux rnd w (GRID_COLS * GRID_ROWS) 0

/-- `ensureFood()` loop body; the JS `while` pushes one food per
iteration, so it runs at most `FOOD_TARGET - foods.length ≤ FOOD_TARGET`
times, which the fuel bound makes explicit.  `rng i` is the random stream
of the `i`-th `spawnFood` call. -/
def ensureFoodAux (rng : Nat → Nat → Nat × Nat) : Nat → Nat → World → World
  | 0, _, w => w
  | fuel + 1, i, w =>
    if w.foods.length < FOOD_TARGET then
      match spawnFood (rng i) w with
      | some c => ensureFoodAux rng fuel (i + 1) { w with foods := w.foods ++ [c] }
      | none => w
    else w

/-- `ensureFood()`: refill the food list toward `FOOD_TARGET`, stopping
early if `spawnFood` fails. -/
def ensureFood (rng : Nat → Nat → Nat × Nat) (w : World) : World :=
  ensureFoodAux rng FOOD_TARGET 0 w

/-- `tick()` (state broadcast omitted): refill food, plan moves for alive
players, resolve them against the pre-tick occupancy index, commit, and
refill food again.  With no alive players the function returns right
after the first refill, as the JS early return does. -/
def tick (rngA rngB : Nat → Nat → Nat × Nat) (w : World) : World :=
  let w1 := ensureFood rngA w
  let liveMoves := (w1.players.filter (·.alive)).map (createMove w1.foods)
  if liveMoves.isEmpty then w1
  else
    let occ := buildBodyOccupancy w1.players
    let resolved := resolveMoves w1.players occ liveMoves
    ensureFood rngB (commitMoves resolved w1)

/-- The snake laid out by a `spawnPlayer` attempt: `INITIAL_LENGTH` cells
starting at `head`, stepping against the facing direction. -/
def spawnBody (head : Pos) (d : Dir) : List Pos :=
  (List.range INITIAL_LENGTH).map
    (fun (i : Nat) => ⟨head.x - (delta d).x * (i : Int), head.y - (delta d).y * (i : Int)⟩)

/-- `spawnPlayer` attempt loop: `rnd k` yields the direction-choice draw
and the two head-cell draws of attempt `k`.  An attempt succeeds iff all
laid-out cells are in bounds and unoccupied (the JS per-cell early break
decides exactly this); only then is the player mutated. -/
def spawnPlayerAux (rnd : Nat → Nat × Nat × Nat) (w : World) (p : Player) :
    Nat → Nat → Bool × Player
  | 0, _ => (false, p)
  | fuel + 1, k =>
    let d := [Dir.up, Dir.right, Dir.down, Dir.left].getD ((rnd k).1 % 4) .up
    let head : Pos := ⟨((rnd k).2.1 % GRID_COLS : Nat), ((rnd k).2.2 % GRID_ROWS : Nat)⟩
    let body := spawnBody head d
    if body.all (fun c => !outOfBounds c && !decide (c ∈ occupiedCells w)) then
      (true,
        { p with
          snake := body
          direction := some d
          pendingDirection := some d
          alive := true
          score := 0 })
    else spawnPlayerAux rnd w p fuel (k + 1)

/-- `spawnPlayer(player)`: up to `MAX_SPAWN_ATTEMPTS` placement attempts;
returns the success flag together with the (possibly updated) player. -/
def spawnPlayer (rnd : Nat → Nat × Nat × Nat) (w : World) (p : Player) :
    Bool × Player :=
  spawnPlayerAux rnd w p MAX_SPAWN_ATTEMPTS 0

/-- The successful tail of `handleInput`: buffer the direction on the
player with the given id and stamp `lastInputAt`. -/
def setPendingDir (w : World) (sid : Nat) (nd : Dir) (t : Nat) : World :=
  { w with
    players := w.players.map (fun q =>
      if q.id = sid then { q with pendingDirection := some nd, lastInputAt := t } else q) }

/-- `handleInput(socket, payload)`: ignore unknown players, dead players,
unknown direction keys, and directions opposite to the current facing;
otherwise buffer the direction. -/
def handleInput (w : World) (sid : Nat) (key : String) (t : Nat) : World :=
  match w.players.find? (fun p => decide (p.id = sid)) with
  | none => w
  | some p =>
    if !p.alive then w
    else
      match DIRECTIONS key with
      | none => w
      | some nd =>
        match p.direction with
        | some d => if isOpposite d nd then w else setPendingDir w sid nd t
        | none => setPendingDir w sid nd t

/-! ### Spec-level predicates -/

/-- Ids in the players map are pairwise distinct (a JS `Map` keyed by
socket id guarantees this). -/
def DistinctIds (ps : List Player) : Prop :=
  (ps.map (·.id)).Nodup

/-- Every alive body is in bounds and free of internal repeats. -/
def BodiesOK (ps : List Player) : Prop :=
  ∀ p ∈ ps, p.alive = true → (∀ c ∈ p.snake, inBounds c) ∧ p.snake.Nodup

/-- Alive bodies of distinct participants do not overlap. -/
def SnakesDisjoint (ps : List Player) : Prop :=
  ∀ p ∈ ps, ∀ q ∈ ps, p.alive = true → q.alive = true → p.id ≠ q.id →
    ∀ c ∈ p.snake, c ∉ q.snake

/-- Invariant 5 of the spec: alive body length is `score + INITIAL_LENGTH`. -/
def LengthLaw (ps : List Player) : Prop :=
  ∀ p ∈ ps, p.alive = true → p.snake.length = p.score + INITIAL_LENGTH

/-- How a move can change across the body pass: it is left intact or
marked dead with reason `body`. -/
def MoveR (a b : Move) : Prop :=
  b = a ∨ b = markBody a

instance (ps : List Player) : Decidable (DistinctIds ps) := by
  unfold DistinctIds; infer_instance

instance (ps : List Player) : Decidable (BodiesOK ps) := by
  unfold BodiesOK; infer_instance

instance (ps : List Player) : Decidable (SnakesDisjoint ps) := by
  unfold SnakesDisjoint; infer_instance

instance (ps : List Player) : Decidable (LengthLaw ps) := by
  unfold LengthLaw; infer_instance

/-! ### Concrete scenarios used by counterexamples and witnesses

`cexW` is an obstacle snake, `cexS` runs into `cexW`'s middle this tick,
and `cexA`, `cexD`, `cexE` all target `cexS`'s tail cell `(8,7)`. -/

/-- Obstacle snake, id 1. -/
def cexW : Player :=
  ⟨1, true, [⟨5,5⟩, ⟨5,6⟩, ⟨5,7⟩, ⟨5,8⟩], some .up, none, 0, 4, 0, 0⟩

/-- Snake id 2; its planned move dies into `cexW`'s middle segment. -/
def cexS : Player :=
  ⟨2, true, [⟨6,6⟩, ⟨7,6⟩, ⟨8,6⟩, ⟨8,7⟩], some .left, none, 0, 4, 0, 0⟩

/-- Snake id 3; its planned move targets `cexS`'s tail. -/
def cexA : Player :=
  ⟨3, true, [⟨7,7⟩, ⟨7,8⟩, ⟨7,9⟩, ⟨7,10⟩], some .right, none, 0, 4, 0, 0⟩

/-- Snake id 4; its planned move also targets `cexS`'s tail. -/
def cexD : Player :=
  ⟨4, true, [⟨8,8⟩, ⟨8,9⟩, ⟨8,10⟩, ⟨8,11⟩], some .up, none, 0, 4, 0, 0⟩

/-- Snake id 5; its planned move also targets `cexS`'s tail. -/
def cexE : Player :=
  ⟨5, true, [⟨9,7⟩, ⟨10,7⟩, ⟨11,7⟩, ⟨12,7⟩], some .left, none, 0, 4, 0, 0⟩

/-- `cexW`'s planned move, to the free cell `(5,4)`. -/
def cexMW : Move := ⟨1, .up, ⟨5,4⟩, false, false, none⟩

/-- `cexS`'s planned move, into `cexW`'s middle segment `(5,6)`. -/
def cexMS : Move := ⟨2, .left, ⟨5,6⟩, false, false, none⟩

/-- `cexA`'s planned move, into `cexS`'s tail cell `(8,7)`. -/
def cexMA : Move := ⟨3, .right, ⟨8,7⟩, false, false, none⟩

/-- `cexD`'s planned move, into `cexS`'s tail cell `(8,7)`. -/
def cexMD : Move := ⟨4, .up, ⟨8,7⟩, false, false, none⟩

/-- `cexE`'s planned move, into `cexS`'s tail cell `(8,7)`. -/
def cexME : Move := ⟨5, .left, ⟨8,7⟩, false, false, none⟩

/-- Three-participant world for the order-dependence counterexample. -/
def cexPs3 : List Player := [cexW, cexS, cexA]

/-- Five-participant world for the reason-overwrite counterexample. -/
def cexPs5 : List Player := [cexW, cexS, cexA, cexD, cexE]

/-- Move list (in players-map order `D, E, S, A, W`) in which `cexMD` and
`cexME` pass through the vacating tail before `cexMS` dies, while `cexMA`
is evaluated after and dies on the same cell. -/
def cexMoves5 : List Move := [cexMD, cexME, cexMS, cexMA, cexMW]

/-- Every cell of the grid, for the saturation witness. -/
def allCells : List Pos :=
  (List.range GRID_COLS).flatMap
    (fun x => (List.range GRID_ROWS).map (fun (y : Nat) => ⟨(x : Int), (y : Int)⟩))

/-- A saturated world: no players, food on every cell. -/
def satWorld : World := { players := [], foods := allCells }

/-- An alive snake moving down, used in the healthy world. -/
def cplayer : Player :=
  ⟨0, true, [⟨0,0⟩, ⟨1,0⟩, ⟨2,0⟩, ⟨3,0⟩], some .down, none, 0, 4, 0, 0⟩

/-- A small healthy world: one alive snake moving down, food topped up. -/
def cworld : World :=
  { players := [cplayer]
    foods := [⟨10,10⟩, ⟨11,10⟩, ⟨12,10⟩, ⟨13,10⟩, ⟨14,10⟩] }

/-- A participant that is not alive, waiting to spawn. -/
def deadPlayer : Player := ⟨7, false, [], none, none, 0, 4, 2, 0⟩

/-- Spawn randomness that places a snake at `(20,15)` facing right. -/
def c9rng : Nat → Nat × Nat × Nat := fun _ => (1, 20, 15)

/-- World with one food at the origin and nobody alive. -/
def c8World : World := { players := [], foods := [⟨0, 0⟩] }

/-- Food randomness that always draws the origin. -/
def c8rnd : Nat → Nat × Nat := fun _ => (0, 0)

/-- The same always-origin randomness, one stream per refill call. -/
def c8rng : Nat → Nat → Nat × Nat := fun _ _ => (0, 0)

/-- Food randomness that draws the free cell `(10,10)`. -/
def c8goodRnd : Nat → Nat × Nat := fun _ => (10, 10)

/-- A constant random stream (every draw is `(0,0)`). -/
def czrng : Nat → Nat → Nat × Nat := fun _ _ => (0, 0)

/-- First claimant of cell `(1,1)` in the head-on scenario. -/
def c3m1 : Move := ⟨1, .up, ⟨1,1⟩, false, false, none⟩

/-- Second claimant of cell `(1,1)` in the head-on scenario. -/
def c3m2 : Move := ⟨2, .down, ⟨1,1⟩, false, false, none⟩

/-- Two moves contesting cell `(1,1)` on an empty board. -/
def c3ms : List Move := [c3m1, c3m2]

/-! ### Generic helper lemmas -/

theorem markBody_markBody (m : Move) : markBody (markBody m) = markBody m := rfl

theorem moveR_fields {a b : Move} (h : MoveR a b) :
    b.playerId = a.playerId ∧ b.nextHead = a.nextHead ∧ b.willEat = a.willEat ∧
    b.direction = a.direction ∧ (a.dead = true → b.dead = true) := by
  rcases h with h | h <;> subst h <;> simp [markBody]

theorem moveR_trans {a b c : Move} (h1 : MoveR a b) (h2 : MoveR b c) : MoveR a c := by
  rcases h1 with h1 | h1 <;> rcases h2 with h2 | h2 <;> subst h1 <;> subst h2 <;>
    simp [MoveR, markBody_markBody]

theorem forall₂_moveR_refl (l : List Move) : List.Forall₂ MoveR l l :=
  List.forall₂_same.2 (fun _ _ => Or.inl rfl)

theorem forall₂_moveR_trans {l₁ l₂ l₃ : List Move} (h1 : List.Forall₂ MoveR l₁ l₂)
    (h2 : List.Forall₂ MoveR l₂ l₃) : List.Forall₂ MoveR l₁ l₃ := by
  induction h1 generalizing l₃ with
  | nil => cases h2; exact List.Forall₂.nil
  | cons hab _ ih =>
    cases h2 with
    | cons hbc h' => exact List.Forall₂.cons (moveR_trans hab hbc) (ih h')

theorem find?_id_unique {l : List Player} (h : (l.map (·.id)).Nodup) {p : Player}
    (hp : p ∈ l) : l.find? (fun r => decide (r.id = p.id)) = some p := by
  induction l with
  | nil => cases hp
  | cons b t ih =>
    rw [List.map_cons, List.nodup_cons] at h
    rcases List.mem_cons.1 hp with rfl | hp'
    · exact List.find?_cons_of_pos _ (by simp)
    · rw [List.find?_cons_of_neg, ih h.2 hp']
      simp only [decide_eq_true_eq]
      intro hkey
      exact h.1 (hkey ▸ List.mem_map_of_mem (·.id) hp')

theorem find?_playerId_unique {l : List Move} (h : (l.map (·.playerId)).Nodup) {m : Move}
    (hm : m ∈ l) : l.find? (fun mv => decide (mv.playerId = m.playerId)) = some m := by
  induction l with
  | nil => cases hm
  | cons b t ih =>
    rw [List.map_cons, List.nodup_cons] at h
    rcases List.mem_cons.1 hm with rfl | hm'
    · exact List.find?_cons_of_pos _ (by simp)
    · rw [List.find?_cons_of_neg, ih h.2 hm']
      simp only [decide_eq_true_eq]
      intro hkey
      exact h.1 (hkey ▸ List.mem_map_of_mem (·.playerId) hm')

theorem find?_perm_playerId {l₁ l₂ : List Move} (hp : l₁.Perm l₂)
    (h : (l₁.map (·.playerId)).Nodup) (pid : Nat) :
    l₁.find? (fun mv => decide (mv.playerId = pid)) =
      l₂.find? (fun mv => decide (mv.playerId = pid)) := by
  cases h₁ : l₁.find? (fun mv => decide (mv.playerId = pid)) with
  | none =>
    have hall := List.find?_eq_none.1 h₁
    exact (List.find?_eq_none.2 (fun x hx => hall x (hp.mem_iff.2 hx))).symm
  | some a =>
    have haMem : a ∈ l₁ := List.mem_of_find?_eq_some h₁
    have haP : a.playerId = pid := by simpa using List.find?_some h₁
    cases h₂ : l₂.find? (fun mv => decide (mv.playerId = pid)) with
    | none =>
      have := List.find?_eq_none.1 h₂ a (hp.mem_iff.1 haMem)
      simp [haP] at this
    | some b =>
      have hbMem : b ∈ l₁ := hp.mem_iff.2 (List.mem_of_find?_eq_some h₂)
      have hbP : b.playerId = pid := by simpa using List.find?_some h₂
      have : a = b :=
        List.inj_on_of_nodup_map h haMem hbMem (by rw [haP, hbP])
      rw [this]

theorem forall₂_find?_playerId {l l' : List Move} (h : List.Forall₂ MoveR l l')
    (pid : Nat) : ∀ {om' : Move},
    l'.find? (fun mv => decide (mv.playerId = pid)) = some om' →
    ∃ om, l.find? (fun mv => decide (mv.playerId = pid)) = some om ∧ MoveR om om' := by
  induction h with
  | nil => intro om' hf; simp at hf
  | @cons a b l₁ l₂ hab _ ih =>
    intro om' hf
    by_cases hpa : a.playerId = pid
    · have hpb : b.playerId = pid := by rw [(moveR_fields hab).1, hpa]
      rw [List.find?_cons_of_pos _ (by simp [hpb])] at hf
      cases hf
      exact ⟨a, List.find?_cons_of_pos _ (by simp [hpa]), hab⟩
    · have hpb : ¬ b.playerId = pid := by rw [(moveR_fields hab).1]; exact hpa
      rw [List.find?_cons_of_neg _ (by simp [hpb])] at hf
      rcases ih hf with ⟨om, h1, h2⟩
      exact ⟨om, by rw [List.find?_cons_of_neg _ (by simp [hpa])]; exact h1, h2⟩

theorem bodyCheck_moveR (ps : List Player) (occ : Pos → Option Occ)
    (cur : List Move) (m : Move) : MoveR m (bodyCheck ps occ cur m) := by
  unfold bodyCheck
  split
  · exact Or.inl rfl
  · split
    · exact Or.inl rfl
    · dsimp only
      split
      · exact Or.inl rfl
      · exact Or.inr rfl

theorem bodyCheck_eq (ps : List Player) (occ : Pos → Option Occ) (cur : List Move)
    (m : Move) :
    bodyCheck ps occ cur m =
      if m.dead then m
      else
        match occ m.nextHead with
        | none => m
        | some o => if vacateB ps cur o then m else markBody m := rfl

theorem bodyCheck_survive {ps : List Player} {occ : Pos → Option Occ} {cur : List Move}
    {m : Move} (h : (bodyCheck ps occ cur m).dead = false) :
    bodyCheck ps occ cur m = m ∧ m.dead = false ∧
    (occ m.nextHead = none ∨
      ∃ o om q, occ m.nextHead = some o ∧
        cur.find? (fun mv => decide (mv.playerId = o.playerId)) = some om ∧
        om.dead = false ∧ om.willEat = false ∧
        ps.find? (fun r => decide (r.id = o.playerId)) = some q ∧
        (o.index : Int) = (q.snake.length : Int) - 1) := by
  by_cases hdead : m.dead = true
  · have heq : bodyCheck ps occ cur m = m := by rw [bodyCheck_eq, if_pos hdead]
    rw [heq] at h
    exact absurd hdead (by simp [h])
  · have hd : m.dead = false := by simpa using hdead
    cases hocc : occ m.nextHead with
    | none =>
      have hbc : bodyCheck ps occ cur m = m := by
        rw [bodyCheck_eq, if_neg hdead, hocc]
      exact ⟨hbc, hd, Or.inl rfl⟩
    | some o =>
      have hbc0 : bodyCheck ps occ cur m =
          if vacateB ps cur o then m else markBody m := by
        rw [bodyCheck_eq, if_neg hdead, hocc]
      by_cases hvac : vacateB ps cur o = true
      · have hbc : bodyCheck ps occ cur m = m := by rw [hbc0, if_pos hvac]
        unfold vacateB at hvac
        cases hom : cur.find? (fun mv => decide (mv.playerId = o.playerId)) with
        | none => rw [hom] at hvac; cases hvac
        | some om =>
          rw [hom] at hvac
          cases hq : ps.find? (fun r => decide (r.id = o.playerId)) with
          | none => rw [hq] at hvac; simp at hvac
          | some q =>
            rw [hq] at hvac
            rw [Bool.and_eq_true, Bool.and_eq_true] at hvac
            refine ⟨hbc, hd, Or.inr ⟨o, om, q, rfl, hom, ?_, ?_, hq, ?_⟩⟩
            · simpa using hvac.1.1
            · simpa using hvac.1.2
            · simpa using hvac.2
      · have hbc : bodyCheck ps occ cur m = markBody m := by rw [hbc0, if_neg hvac]
        rw [hbc] at h
        simp [markBody] at h

theorem bodyPassAux_get?_left (ps : List Player) (occ : Pos → Option Occ) :
    ∀ (rest done : List Move) (k : Nat), k < done.length →
    (bodyPassAux ps occ done rest).get? k = done.get? k := by
  intro rest
  induction rest with
  | nil => intro done k _; rfl
  | cons m rest ih =>
    intro done k hk
    show (bodyPassAux ps occ (done ++ [bodyCheck ps occ (done ++ m :: rest) m]) rest).get? k
        = done.get? k
    rw [ih (done ++ [bodyCheck ps occ (done ++ m :: rest) m]) k (by simp; omega)]
    exact List.get?_append hk

theorem bodyPassAux_get?_right (ps : List Player) (occ : Pos → Option Occ) :
    ∀ (rest done : List Move) (j : Nat) (m : Move), rest.get? j = some m →
    ∃ cur, List.Forall₂ MoveR (done ++ rest) cur ∧
      (bodyPassAux ps occ done rest).get? (done.length + j) =
        some (bodyCheck ps occ cur m) := by
  intro rest
  induction rest with
  | nil => intro done j m hj; simp at hj
  | cons m0 rest ih =>
    intro done j m hj
    cases j with
    | zero =>
      rw [List.get?_cons_zero] at hj
      injection hj with hj
      subst hj
      refine ⟨done ++ m0 :: rest, forall₂_moveR_refl _, ?_⟩
      show (bodyPassAux ps occ (done ++ [bodyCheck ps occ (done ++ m0 :: rest) m0]) rest).get?
          (done.length + 0) = _
      rw [Nat.add_zero,
        bodyPassAux_get?_left ps occ rest _ _ (by simp)]
      exact List.get?_concat_length _ _
    | succ j =>
      rw [List.get?_cons_succ] at hj
      rcases ih (done ++ [bodyCheck ps occ (done ++ m0 :: rest) m0]) j m hj with
        ⟨cur, hrel, hget⟩
      refine ⟨cur, ?_, ?_⟩
      · apply forall₂_moveR_trans _ hrel
        rw [List.append_assoc]
        exact List.rel_append (forall₂_moveR_refl done)
          (List.Forall₂.cons (bodyCheck_moveR _ _ _ _) (forall₂_moveR_refl rest))
      · show (bodyPassAux ps occ (done ++ [bodyCheck ps occ (done ++ m0 :: rest) m0]) rest).get?
            (done.length + (j + 1)) = _
        have harith : done.length + (j + 1) =
            (done ++ [bodyCheck ps occ (done ++ m0 :: rest) m0]).length + j := by
          simp
          omega
        rw [harith]
        exact hget

theorem bodyPass_get? (ps : List Player) (occ : Pos → Option Occ) {ms : List Move}
    {i : Nat} {m : Move} (h : ms.get? i = some m) :
    ∃ cur, List.Forall₂ MoveR ms cur ∧
      (bodyPass ps occ ms).get? i = some (bodyCheck ps occ cur m) := by
  have hx := bodyPassAux_get?_right ps occ ms [] i m h
  simpa [bodyPass] using hx

theorem bodyPass_forall₂ (ps : List Player) (occ : Pos → Option Occ) (ms : List Move) :
    List.Forall₂ MoveR ms (bodyPass ps occ ms) := by
  suffices h : ∀ rest done : List Move,
      List.Forall₂ MoveR (done ++ rest) (bodyPassAux ps occ done rest) by
    simpa [bodyPass] using h ms []
  intro rest
  induction rest with
  | nil => intro done; rw [List.append_nil]; exact forall₂_moveR_refl done
  | cons m0 rest ih =>
    intro done
    show List.Forall₂ MoveR (done ++ m0 :: rest)
      (bodyPassAux ps occ (done ++ [bodyCheck ps occ (done ++ m0 :: rest) m0]) rest)
    apply forall₂_moveR_trans _ (ih (done ++ [bodyCheck ps occ (done ++ m0 :: rest) m0]))
    rw [List.append_assoc]
    exact List.rel_append (forall₂_moveR_refl done)
      (List.Forall₂.cons (bodyCheck_moveR _ _ _ _) (forall₂_moveR_refl rest))

theorem bodyPass_length (ps : List Player) (occ : Pos → Option Occ) (ms : List Move) :
    (bodyPass ps occ ms).length = ms.length :=
  ((bodyPass_forall₂ ps occ ms).length_eq).symm

theorem bodyPass_survivor_mem {ps : List Player} {occ : Pos → Option Occ}
    {ms : List Move} {m' : Move} (hmem : m' ∈ bodyPass ps occ ms)
    (hd : m'.dead = false) : m' ∈ ms := by
  rcases List.mem_iff_get?.1 hmem with ⟨i, hi⟩
  have hlt : i < ms.length := by
    rcases List.get?_eq_some.1 hi with ⟨hb, _⟩
    rwa [bodyPass_length] at hb
  obtain ⟨m, hm⟩ : ∃ m, ms.get? i = some m := by
    cases hms : ms.get? i with
    | none => rw [List.get?_eq_none] at hms; omega
    | some m => exact ⟨m, rfl⟩
  rcases bodyPass_get? ps occ hm with ⟨cur, _, hget⟩
  rw [hi] at hget
  injection hget with heq
  have hsurv : (bodyCheck ps occ cur m).dead = false := by rw [← heq]; exact hd
  have := (bodyCheck_survive hsurv).1
  rw [heq, this]
  exact List.get?_mem hm

theorem bodyPass_survivor {ps : List Player} {occ : Pos → Option Occ}
    {ms : List Move} (hids : (ms.map (·.playerId)).Nodup) {m' : Move}
    (hmem : m' ∈ bodyPass ps occ ms) (hd : m'.dead = false) :
    m' ∈ ms ∧
    (occ m'.nextHead = none ∨
      ∃ o q, occ m'.nextHead = some o ∧
        ps.find? (fun r => decide (r.id = o.playerId)) = some q ∧
        (o.index : Int) = (q.snake.length : Int) - 1 ∧
        (o.playerId = m'.playerId → m'.willEat = false)) := by
  rcases List.mem_iff_get?.1 hmem with ⟨i, hi⟩
  have hlt : i < ms.length := by
    rcases List.get?_eq_some.1 hi with ⟨hb, _⟩
    rwa [bodyPass_length] at hb
  obtain ⟨m, hm⟩ : ∃ m, ms.get? i = some m := by
    cases hms : ms.get? i with
    | none => rw [List.get?_eq_none] at hms; omega
    | some m => exact ⟨m, rfl⟩
  rcases bodyPass_get? ps occ hm with ⟨cur, hrel, hget⟩
  rw [hi] at hget
  injection hget with heq
  have hsurv : (bodyCheck ps occ cur m).dead = false := by rw [← heq]; exact hd
  rcases bodyCheck_survive hsurv with ⟨hbc, _, hdisj⟩
  have hm'm : m' = m := by rw [heq, hbc]
  subst hm'm
  refine ⟨List.get?_mem hm, ?_⟩
  rcases hdisj with hnone | ⟨o, om, q, ho, homf, homd, homw, hqf, hti⟩
  · exact Or.inl hnone
  · refine Or.inr ⟨o, q, ho, hqf, hti, ?_⟩
    intro hopid
    rcases forall₂_find?_playerId hrel o.playerId homf with ⟨om₀, hf₀, hR⟩
    have huniq : ms.find? (fun mv => decide (mv.playerId = o.playerId)) = some m' := by
      rw [hopid]
      exact find?_playerId_unique hids (List.get?_mem hm)
    rw [huniq] at hf₀
    injection hf₀ with hf₀
    subst hf₀
    have hwe : om.willEat = m'.willEat := (moveR_fields hR).2.2.1
    rw [← hwe]
    exact homw

theorem wallPass_get? {ms : List Move} {i : Nat} {m0 : Move} (h : ms.get? i = some m0) :
    (wallPass ms).get? i =
      some (if m0.dead then m0
            else if outOfBounds m0.nextHead then { m0 with dead := true, reason := some .wall }
            else m0) := by
  unfold wallPass
  rw [List.get?_map, h, Option.map_some']

theorem wallPass_survivor {ms : List Move} {m' : Move} (hmem : m' ∈ wallPass ms)
    (hd : m'.dead = false) : m' ∈ ms ∧ outOfBounds m'.nextHead = false := by
  unfold wallPass at hmem
  rcases List.mem_map.1 hmem with ⟨m, hm, heq⟩
  by_cases h1 : m.dead = true
  · rw [if_pos h1] at heq
    subst heq
    exact absurd h1 (by simp [hd])
  · rw [if_neg h1] at heq
    by_cases h2 : outOfBounds m.nextHead = true
    · rw [if_pos h2] at heq
      subst heq
      simp at hd
    · rw [if_neg h2] at heq
      subst heq
      exact ⟨hm, by simpa using h2⟩

theorem headPass_get? {ms : List Move} {i : Nat} {m : Move} (h : ms.get? i = some m) :
    (headPass ms).get? i =
      some (if 2 ≤ headCount ms m.nextHead then markHead m else m) := by
  unfold headPass
  rw [List.get?_map, h, Option.map_some']

theorem headPass_survivor {ms : List Move} {m' : Move} (hmem : m' ∈ headPass ms)
    (hd : m'.dead = false) : m' ∈ ms ∧ headCount ms m'.nextHead ≤ 1 := by
  unfold headPass at hmem
  rcases List.mem_map.1 hmem with ⟨m, hm, heq⟩
  by_cases hc : 2 ≤ headCount ms m.nextHead
  · rw [if_pos hc] at heq
    subst heq
    simp [markHead] at hd
  · rw [if_neg hc] at heq
    subst heq
    exact ⟨hm, by omega⟩

theorem forall₂_map_playerId {l l' : List Move} (h : List.Forall₂ MoveR l l') :
    l'.map (·.playerId) = l.map (·.playerId) := by
  induction h with
  | nil => rfl
  | cons hab _ ih => simp only [List.map_cons, ih, (moveR_fields hab).1]

theorem wallPass_map_playerId (ms : List Move) :
    (wallPass ms).map (·.playerId) = ms.map (·.playerId) := by
  unfold wallPass
  rw [List.map_map]
  apply List.map_congr_left
  intro m _
  by_cases h1 : m.dead = true
  · simp [h1]
  · by_cases h2 : outOfBounds m.nextHead = true <;> simp [h1, h2]

/-! ### Claim theorems: the collision resolver -/

/-- C1 is refuted at a concrete input: the two move orders
`[cexMA, cexMS, cexMW]` and `[cexMS, cexMA, cexMW]` are permutations of
one another over the same pre-tick occupancy index, yet the body pass
kills one move under the first order and two under the second — `cexMA`
survives when evaluated before `cexMS` dies and is killed (reason `body`)
when evaluated after, because the vacancy check reads the occupant's dead
flag at evaluation time. -/
theorem c1_counterexample :
    ([cexMA, cexMS, cexMW] : List Move).Perm [cexMS, cexMA, cexMW] ∧
    (bodyPass cexPs3 (buildBodyOccupancy cexPs3) [cexMA, cexMS, cexMW]).countP (·.dead) = 1 ∧
    (bodyPass cexPs3 (buildBodyOccupancy cexPs3) [cexMS, cexMA, cexMW]).countP (·.dead) = 2 ∧
    (bodyPass cexPs3 (buildBodyOccupancy cexPs3) [cexMA, cexMS, cexMW]).find?
      (fun mv => decide (mv.playerId = 3)) = some cexMA ∧
    (bodyPass cexPs3 (buildBodyOccupancy cexPs3) [cexMS, cexMA, cexMW]).find?
      (fun mv => decide (mv.playerId = 3)) = some (markBody cexMA) := by
  decide

/-- C1 (amended): the body pass is order-independent only when every
vacancy decision is taken against the fixed post-wall-pass snapshot of
the moves; for that snapshot variant, any two iteration orders of the
planned moves (with distinct owners) produce the same multiset of
outcomes — same moves marked dead and same reasons.  (The implemented
sequential pass instead reads the occupant's dead flag at evaluation
time, so deaths recorded earlier in the same pass can change later
vacancy decisions; see the counterexample.) -/
theorem c1_bodyPassSnapshot_order_independent (ps : List Player)
    (occ : Pos → Option Occ) (ms₁ ms₂ : List Move)
    (hperm : ms₁.Perm ms₂) (hids : (ms₁.map (·.playerId)).Nodup) :
    (bodyPassSnapshot ps occ ms₁ : Multiset Move) =
      (bodyPassSnapshot ps occ ms₂ : Multiset Move) := by
  have hfind : ∀ pid, ms₁.find? (fun mv => decide (mv.playerId = pid)) =
      ms₂.find? (fun mv => decide (mv.playerId = pid)) :=
    fun pid => find?_perm_playerId hperm hids pid
  have hvac : ∀ o, vacateB ps ms₁ o = vacateB ps ms₂ o := by
    intro o
    unfold vacateB
    rw [hfind o.playerId]
  have hfun : ∀ m, bodyCheck ps occ ms₁ m = bodyCheck ps occ ms₂ m := by
    intro m
    rw [bodyCheck_eq, bodyCheck_eq]
    cases hocc : occ m.nextHead with
    | none => rfl
    | some o => simp only [hvac]
  have hmap : bodyPassSnapshot ps occ ms₂ = ms₂.map (bodyCheck ps occ ms₁) :=
    List.map_congr_left (fun a _ => (hfun a).symm)
  rw [Multiset.coe_eq_coe, hmap]
  exact hperm.map _

/-- Witness for the amended C1 at the concrete scenario. -/
theorem c1_order_witness :
    (bodyPassSnapshot cexPs3 (buildBodyOccupancy cexPs3) [cexMA, cexMS, cexMW] : Multiset Move) =
      (bodyPassSnapshot cexPs3 (buildBodyOccupancy cexPs3) [cexMS, cexMA, cexMW] : Multiset Move) :=
  c1_bodyPassSnapshot_order_independent _ _ _ _ (by decide) (by decide)

/-- C2: a not-yet-dead move whose `nextHead` is occupied according to the
occupancy index survives the body-pass check iff the occupying segment is
its owner's tail (`index = length - 1`) and the owner's own move, as
currently recorded, is alive (`dead = false`) and non-eating
(`willEat = false`).  Nothing in the criterion compares the occupant's
owner with the moving snake, so it is the same for self and for others;
a move failing the criterion is marked dead with reason `body`. -/
theorem c2_bodyCheck_survival_iff (ps : List Player) (occ : Pos → Option Occ)
    (cur : List Move) (m : Move) (o : Occ) (q : Player) (om : Move)
    (hm : m.dead = false) (ho : occ m.nextHead = some o)
    (hq : ps.find? (fun r => decide (r.id = o.playerId)) = some q)
    (hom : cur.find? (fun mv => decide (mv.playerId = o.playerId)) = some om) :
    ((bodyCheck ps occ cur m).dead = false ↔
      ((o.index : Int) = (q.snake.length : Int) - 1 ∧ om.dead = false ∧ om.willEat = false)) ∧
    ((bodyCheck ps occ cur m).dead = true → bodyCheck ps occ cur m = markBody m) := by
  have hne : ¬ m.dead = true := by simp [hm]
  constructor
  · constructor
    · intro hsurv
      rcases (bodyCheck_survive hsurv).2.2 with hnone | ⟨o', om', q', ho', hom', hd', hw', hq', ht'⟩
      · rw [ho] at hnone; cases hnone
      · rw [ho] at ho'
        injection ho' with ho''
        subst ho''
        rw [hom] at hom'
        injection hom' with hom''
        subst hom''
        rw [hq] at hq'
        injection hq' with hq''
        subst hq''
        exact ⟨ht', hd', hw'⟩
    · rintro ⟨ht, hd, hw⟩
      have hvac : vacateB ps cur o = true := by
        unfold vacateB
        rw [hom, hq]
        simp [ht, hd, hw]
      have hbc : bodyCheck ps occ cur m = m := by
        rw [bodyCheck_eq, if_neg hne, ho]
        dsimp only
        rw [if_pos hvac]
      rw [hbc]
      exact hm
  · intro hdead2
    rcases bodyCheck_moveR ps occ cur m with he | he
    · rw [he, hm] at hdead2; cases hdead2
    · exact he

/-- Witness for C2: `cexMA` moves into `cexS`'s tail and the criterion
holds for `cexS`'s own (alive, non-eating) move. -/
theorem c2_witness :
    (bodyCheck cexPs3 (buildBodyOccupancy cexPs3) [cexMA, cexMS, cexMW] cexMA).dead = false := by
  have h := c2_bodyCheck_survival_iff cexPs3 (buildBodyOccupancy cexPs3)
    [cexMA, cexMS, cexMW] cexMA ⟨2, 3⟩ cexS cexMS
    (by decide) (by decide) (by decide) (by decide)
  exact h.1.mpr (by decide)

/-- C3: in the head pass, a move of the post-wall/body move list whose
target cell is claimed by two or more still-alive moves is marked dead
with reason `head` (in particular every *surviving* claimant is, no
matter how many claimants there are), while a move whose cell has exactly
one surviving claimant passes through unchanged — so a sole surviving
claimant stays alive. -/
theorem c3_headPass_mutual_elimination (ps : List Player) (occ : Pos → Option Occ)
    (ms : List Move) (i : Nat) (m2 : Move)
    (h : (bodyPass ps occ (wallPass ms)).get? i = some m2) :
    (2 ≤ headCount (bodyPass ps occ (wallPass ms)) m2.nextHead →
      (resolveMoves ps occ ms).get? i = some (markHead m2)) ∧
    (headCount (bodyPass ps occ (wallPass ms)) m2.nextHead = 1 →
      (resolveMoves ps occ ms).get? i = some m2) ∧
    (markHead m2).dead = true ∧ (markHead m2).reason = some Reason.head := by
  refine ⟨fun hcnt => ?_, fun hcnt => ?_, by simp [markHead], by simp [markHead]⟩
  · unfold resolveMoves headPass
    rw [List.get?_map, h, Option.map_some']
    rw [if_pos hcnt]
  · unfold resolveMoves headPass
    rw [List.get?_map, h, Option.map_some']
    rw [if_neg (by omega)]

/-- Witness for C3: two claimants of `(1,1)` on an empty board both die
with reason `head`. -/
theorem c3_witness :
    (resolveMoves [] (fun _ => none) c3ms).get? 0 = some (markHead c3m1) := by
  have h := c3_headPass_mutual_elimination [] (fun _ => none) c3ms 0 c3m1 (by decide)
  exact h.1 (by decide)

/-- C4 (amended): a move never comes back to life, and a move killed by
the wall pass keeps its `wall` reason through both later passes (its
out-of-bounds target can never be claimed by surviving moves).  A move
killed by the body pass keeps `dead = true` but does *not* always keep
reason `body`: the head pass rewrites its reason to `head` exactly when
its target cell is claimed by two or more still-alive moves, because the
head pass's marking loop does not skip already-dead moves. -/
theorem c4_dead_moves_amended (ps : List Player) (occ : Pos → Option Occ)
    (ms : List Move) (i : Nat) (m1 m2 : Move)
    (hstart : ∀ m ∈ ms, m.dead = false)
    (h1 : (wallPass ms).get? i = some m1)
    (h2 : (bodyPass ps occ (wallPass ms)).get? i = some m2) :
    (m1.dead = true →
      m1.reason = some Reason.wall ∧ m2 = m1 ∧
      (resolveMoves ps occ ms).get? i = some m1) ∧
    (m1.dead = false → m2.dead = true →
      m2.reason = some Reason.body ∧
      (resolveMoves ps occ ms).get? i =
        some (if 2 ≤ headCount (bodyPass ps occ (wallPass ms)) m2.nextHead
              then markHead m2 else m2)) := by
  have hlt : i < ms.length := by
    rcases List.get?_eq_some.1 h1 with ⟨hb, _⟩
    unfold wallPass at hb
    rwa [List.length_map] at hb
  obtain ⟨m0, h0⟩ : ∃ m0, ms.get? i = some m0 := by
    cases hms : ms.get? i with
    | none => rw [List.get?_eq_none] at hms; omega
    | some m0 => exact ⟨m0, rfl⟩
  have hm0d : m0.dead = false := hstart m0 (List.get?_mem h0)
  have hw := wallPass_get? h0
  rw [h1] at hw
  injection hw with hw
  rcases bodyPass_get? ps occ h1 with ⟨cur, _, hget⟩
  rw [h2] at hget
  injection hget with hget
  constructor
  · intro hm1d
    have hout : outOfBounds m0.nextHead = true ∧
        m1 = { m0 with dead := true, reason := some .wall } := by
      rw [if_neg (by simp [hm0d])] at hw
      by_cases h2b : outOfBounds m0.nextHead = true
      · rw [if_pos h2b] at hw
        exact ⟨h2b, hw⟩
      · rw [if_neg h2b] at hw
        rw [hw] at hm1d
        exact absurd hm1d (by simp [hm0d])
    have hreason : m1.reason = some Reason.wall := by rw [hout.2]
    have hm2m1 : m2 = m1 := by
      rw [hget, bodyCheck_eq, if_pos hm1d]
    refine ⟨hreason, hm2m1, ?_⟩
    have hhp := headPass_get? h2
    have hnh : m2.nextHead = m0.nextHead := by rw [hm2m1, hout.2]
    have hcnt : headCount (bodyPass ps occ (wallPass ms)) m2.nextHead = 0 := by
      unfold headCount
      rw [List.countP_eq_zero]
      intro x hx
      simp only [Bool.and_eq_true, Bool.not_eq_true', decide_eq_true_eq, not_and]
      intro hxd hxn
      have hxw := bodyPass_survivor_mem hx hxd
      have hxout := (wallPass_survivor hxw hxd).2
      rw [hxn, hnh, hout.1] at hxout
      cases hxout
    unfold resolveMoves
    rw [hhp, hcnt]
    rw [if_neg (by omega), hm2m1]
  · intro hm1d hm2d
    have hbody : m2 = markBody m1 := by
      rcases bodyCheck_moveR ps occ cur m1 with he | he
      · rw [hget, he] at hm2d
        exact absurd hm2d (by simp [hm1d])
      · rw [hget, he]
    refine ⟨by rw [hbody]; rfl, ?_⟩
    unfold resolveMoves
    exact headPass_get? h2

/-- Witness for the amended C4 at the concrete five-snake scenario. -/
theorem c4_amended_witness :
    (markBody cexMA).reason = some Reason.body ∧
    (resolveMoves cexPs5 (buildBodyOccupancy cexPs5) cexMoves5).get? 3 =
      some (if 2 ≤ headCount (bodyPass cexPs5 (buildBodyOccupancy cexPs5) (wallPass cexMoves5))
                (markBody cexMA).nextHead
            then markHead (markBody cexMA) else markBody cexMA) := by
  have h := c4_dead_moves_amended cexPs5 (buildBodyOccupancy cexPs5) cexMoves5 3
    cexMA (markBody cexMA) (by decide) (by decide) (by decide)
  exact h.2 (by decide) (by decide)

/-- C4 is refuted at a concrete input: in the five-snake scenario the
move of participant 3 (`cexMA`) is marked dead with reason `body` by the
body pass, yet after the head pass — whose inner marking loop does not
skip already-dead moves — the same move carries reason `head`, because
its target cell `(8,7)` is also claimed by the two surviving moves of
participants 4 and 5. -/
theorem c4_counterexample :
    (bodyPass cexPs5 (buildBodyOccupancy cexPs5) (wallPass cexMoves5)).get? 3 =
      some (markBody cexMA) ∧
    (markBody cexMA).dead = true ∧ (markBody cexMA).reason = some Reason.body ∧
    (resolveMoves cexPs5 (buildBodyOccupancy cexPs5) cexMoves5).get? 3 =
      some (markHead (markBody cexMA)) ∧
    (markHead (markBody cexMA)).reason = some Reason.head := by
  decide

theorem nodup_of_countP_le_one {l : List Pos}
    (h : ∀ c : Pos, l.countP (fun x => decide (x = c)) ≤ 1) : l.Nodup := by
  induction l with
  | nil => exact List.nodup_nil
  | cons a t ih =>
    rw [List.nodup_cons]
    constructor
    · intro hmem
      have ha := h a
      rw [List.countP_cons] at ha
      have hpos : 0 < t.countP (fun x => decide (x = a)) :=
        List.countP_pos.2 ⟨a, hmem, by simp⟩
      rw [if_pos (by simp)] at ha
      omega
    · apply ih
      intro c
      have hc := h c
      rw [List.countP_cons] at hc
      exact le_trans (Nat.le_add_right _ _) hc

theorem resolve_headCount_le_one (ps : List Player) (occ : Pos → Option Occ)
    (ms : List Move) (X : Pos) :
    (resolveMoves ps occ ms).countP (fun m => !m.dead && decide (m.nextHead = X)) ≤ 1 := by
  unfold resolveMoves headPass
  rw [List.countP_map]
  by_cases hc : 2 ≤ headCount (bodyPass ps occ (wallPass ms)) X
  · have hzero : (bodyPass ps occ (wallPass ms)).countP
        ((fun m => !m.dead && decide (m.nextHead = X)) ∘
          (fun m => if 2 ≤ headCount (bodyPass ps occ (wallPass ms)) m.nextHead
                    then markHead m else m)) = 0 := by
      rw [List.countP_eq_zero]
      intro m _
      simp only [Function.comp]
      by_cases hx : m.nextHead = X
      · have hcm : 2 ≤ headCount (bodyPass ps occ (wallPass ms)) m.nextHead := by
          rw [hx]; exact hc
        simp [hcm, markHead]
      · by_cases hcm : 2 ≤ headCount (bodyPass ps occ (wallPass ms)) m.nextHead
        · simp [hcm, markHead, hx]
        · simp [hcm, hx]
    rw [hzero]
    omega
  · have hmono : (bodyPass ps occ (wallPass ms)).countP
        ((fun m => !m.dead && decide (m.nextHead = X)) ∘
          (fun m => if 2 ≤ headCount (bodyPass ps occ (wallPass ms)) m.nextHead
                    then markHead m else m)) ≤
        (bodyPass ps occ (wallPass ms)).countP (fun m => !m.dead && decide (m.nextHead = X)) := by
      apply List.countP_mono_left
      intro m _ hpm
      simp only [Function.comp] at hpm
      by_cases hcm : 2 ≤ headCount (bodyPass ps occ (wallPass ms)) m.nextHead
      · simp [hcm, markHead] at hpm
      · simpa [hcm] using hpm
    have hcnt : (bodyPass ps occ (wallPass ms)).countP
        (fun m => !m.dead && decide (m.nextHead = X)) = headCount (bodyPass ps occ (wallPass ms)) X := rfl
    rw [hcnt] at hmono
    omega

/-- C7: after the three resolution passes of a tick, the moves still
alive (which are exactly those committed with a body advance) target
pairwise distinct cells; consequently, for any cell, at most one alive
move with `willEat` targets it, so two committed moves can never both eat
the same food cell in one tick. -/
theorem c7_committed_heads_distinct (ps : List Player) (occ : Pos → Option Occ)
    (ms : List Move) :
    (((resolveMoves ps occ ms).filter (fun m => !m.dead)).map (·.nextHead)).Nodup ∧
    ∀ c : Pos, ((resolveMoves ps occ ms).filter
      (fun m => !m.dead && m.willEat && decide (m.nextHead = c))).length ≤ 1 := by
  constructor
  · apply nodup_of_countP_le_one
    intro c
    rw [List.countP_map, List.countP_filter]
    refine le_trans (List.countP_mono_left ?_) (resolve_headCount_le_one ps occ ms c)
    intro a _ h
    simp only [Bool.and_eq_true] at h ⊢
    exact ⟨h.2, h.1⟩
  · intro c
    rw [← List.countP_eq_length_filter]
    refine le_trans (List.countP_mono_left ?_) (resolve_headCount_le_one ps occ ms c)
    intro a _ h
    simp only [Bool.and_eq_true] at h ⊢
    exact ⟨h.1.1, h.2⟩

/-! ### Occupancy-index accuracy -/

theorem snakeEntries_mem (pid : Nat) : ∀ (s : List Pos) (i : Nat) (c : Pos) (o : Occ),
    (c, o) ∈ snakeEntries pid i s ↔ ∃ k, s.get? k = some c ∧ o = ⟨pid, i + k⟩ := by
  intro s
  induction s with
  | nil => intro i c o; simp [snakeEntries]
  | cons c0 rest ih =>
    intro i c o
    simp only [snakeEntries, List.mem_cons]
    constructor
    · rintro (heq | hmem)
      · rw [Prod.mk.injEq] at heq
        exact ⟨0, by rw [List.get?_cons_zero, heq.1], by simp [heq.2]⟩
      · rcases (ih (i + 1) c o).1 hmem with ⟨k, hk1, hk2⟩
        refine ⟨k + 1, by rw [List.get?_cons_succ]; exact hk1, ?_⟩
        rw [hk2]
        congr 1
        omega
    · rintro ⟨k, hk1, hk2⟩
      cases k with
      | zero =>
        left
        rw [List.get?_cons_zero] at hk1
        injection hk1 with hk1
        rw [Prod.mk.injEq]
        exact ⟨hk1.symm, by simp [hk2]⟩
      | succ k =>
        right
        apply (ih (i + 1) c o).2
        refine ⟨k, by rw [List.get?_cons_succ] at hk1; exact hk1, ?_⟩
        rw [hk2]
        congr 1
        omega

theorem occEntries_mem {ps : List Player} {c : Pos} {o : Occ} :
    (c, o) ∈ occEntries ps ↔
      ∃ p ∈ ps, p.alive = true ∧ ∃ k, p.snake.get? k = some c ∧ o = ⟨p.id, k⟩ := by
  unfold occEntries
  rw [List.mem_flatMap]
  constructor
  · rintro ⟨p, hp, hmem⟩
    rw [List.mem_filter] at hp
    rcases (snakeEntries_mem p.id p.snake 0 c o).1 hmem with ⟨k, hk1, hk2⟩
    exact ⟨p, hp.1, hp.2, k, hk1, by rw [hk2]; congr 1; omega⟩
  · rintro ⟨p, hp, halive, k, hk1, hk2⟩
    refine ⟨p, List.mem_filter.2 ⟨hp, halive⟩, ?_⟩
    apply (snakeEntries_mem p.id p.snake 0 c o).2
    exact ⟨k, hk1, by rw [hk2]; congr 1; omega⟩

theorem buildBodyOccupancy_none {ps : List Player} {c : Pos} :
    buildBodyOccupancy ps c = none ↔ ∀ p ∈ ps, p.alive = true → c ∉ p.snake := by
  unfold buildBodyOccupancy
  rw [Option.map_eq_none']
  constructor
  · intro h p hp halive hc
    have hall := List.find?_eq_none.1 h
    rcases List.mem_iff_get?.1 hc with ⟨k, hk⟩
    have hmem : ((c, ⟨p.id, k⟩) : Pos × Occ) ∈ (occEntries ps).reverse := by
      rw [List.mem_reverse]
      exact occEntries_mem.2 ⟨p, hp, halive, k, hk, rfl⟩
    have := hall _ hmem
    simp at this
  · intro h
    rw [List.find?_eq_none]
    rintro ⟨e1, e2⟩ he
    rw [List.mem_reverse] at he
    rcases occEntries_mem.1 he with ⟨p, hp, halive, k, hk1, _⟩
    simp only [decide_eq_true_eq]
    intro hec
    exact h p hp halive (by rw [← hec]; exact List.get?_mem hk1)

theorem get?_inj_of_nodup {l : List Pos} (h : l.Nodup) {i j : Nat} {a : Pos}
    (hi : l.get? i = some a) (hj : l.get? j = some a) : i = j := by
  rcases List.get?_eq_some.1 hi with ⟨hi', hig⟩
  rcases List.get?_eq_some.1 hj with ⟨hj', hjg⟩
  have := (@List.Nodup.get_inj_iff _ l h ⟨i, hi'⟩ ⟨j, hj'⟩).1 (by rw [hig, hjg])
  simpa using this

theorem buildBodyOccupancy_some {ps : List Player} (hids : DistinctIds ps)
    (hnd : ∀ p ∈ ps, p.alive = true → p.snake.Nodup)
    (hdis : SnakesDisjoint ps) {p : Player} (hp : p ∈ ps) (halive : p.alive = true)
    {k : Nat} {c : Pos} (hk : p.snake.get? k = some c) :
    buildBodyOccupancy ps c = some ⟨p.id, k⟩ := by
  unfold buildBodyOccupancy
  cases hfind : (occEntries ps).reverse.find? (fun e => decide (e.1 = c)) with
  | none =>
    exfalso
    have hall := List.find?_eq_none.1 hfind
    have hmem : ((c, ⟨p.id, k⟩) : Pos × Occ) ∈ (occEntries ps).reverse := by
      rw [List.mem_reverse]
      exact occEntries_mem.2 ⟨p, hp, halive, k, hk, rfl⟩
    have := hall _ hmem
    simp at this
  | some e =>
    obtain ⟨e1, e2⟩ := e
    have hemem : (e1, e2) ∈ occEntries ps :=
      List.mem_reverse.1 (List.mem_of_find?_eq_some hfind)
    have hec : e1 = c := by simpa using List.find?_some hfind
    subst hec
    rcases occEntries_mem.1 hemem with ⟨q, hq, hqalive, j, hj, h2⟩
    have hcq : e1 ∈ q.snake := List.get?_mem hj
    have hcp : e1 ∈ p.snake := List.get?_mem hk
    have hqp : q = p := by
      by_cases hid : q.id = p.id
      · exact List.inj_on_of_nodup_map hids hq hp hid
      · exact absurd hcp (hdis q hq p hp hqalive halive hid e1 hcq)
    subst hqp
    have hjk : j = k := get?_inj_of_nodup (hnd q hq hqalive) hj hk
    rw [h2, hjk]
    rfl

/-! ### Tick and commit plumbing -/

theorem outOfBounds_false_iff (c : Pos) : outOfBounds c = false ↔ inBounds c := by
  unfold outOfBounds inBounds
  simp only [Bool.or_eq_false_iff, decide_eq_false_iff_not, not_lt, Int.not_le]
  constructor
  · rintro ⟨⟨⟨h1, h2⟩, h3⟩, h4⟩
    exact ⟨h1, h2, h3, h4⟩
  · rintro ⟨h1, h2, h3, h4⟩
    exact ⟨⟨⟨h1, h2⟩, h3⟩, h4⟩

theorem ensureFoodAux_players (rng : Nat → Nat → Nat × Nat) :
    ∀ (fuel i : Nat) (w : World), (ensureFoodAux rng fuel i w).players = w.players := by
  intro fuel
  induction fuel with
  | zero => intro i w; rfl
  | succ fuel ih =>
    intro i w
    show (if w.foods.length < FOOD_TARGET then
        match spawnFood (rng i) w with
        | some c => ensureFoodAux rng fuel (i + 1) { w with foods := w.foods ++ [c] }
        | none => w
      else w).players = w.players
    by_cases h : w.foods.length < FOOD_TARGET
    · rw [if_pos h]
      cases hs : spawnFood (rng i) w with
      | some c => exact ih (i + 1) { w with foods := w.foods ++ [c] }
      | none => rfl
    · rw [if_neg h]

theorem ensureFood_players (rng : Nat → Nat → Nat × Nat) (w : World) :
    (ensureFood rng w).players = w.players :=
  ensureFoodAux_players rng FOOD_TARGET 0 w

theorem applyMove_id (m : Move) (p : Player) : (applyMove m p).id = p.id := by
  unfold applyMove killPlayer advancePlayer
  by_cases hd : m.dead = true
  · rw [if_pos hd]
    by_cases ha : (!p.alive) = true
    · rw [if_pos ha]
    · rw [if_neg ha]
  · rw [if_neg hd]
    by_cases hw : m.willEat = true
    · rw [if_pos hw]
    · rw [if_neg hw]

theorem commitMoves_players (ms : List Move) (w : World)
    (hnd : (ms.map (·.playerId)).Nodup) :
    (commitMoves ms w).players =
      w.players.map (fun p =>
        match ms.find? (fun mv => decide (mv.playerId = p.id)) with
        | some mv => applyMove mv p
        | none => p) := by
  induction ms generalizing w with
  | nil =>
    symm
    have h0 : ∀ p ∈ w.players,
        (match ([] : List Move).find? (fun mv => decide (mv.playerId = p.id)) with
         | some mv => applyMove mv p
         | none => p) = p := fun p _ => rfl
    calc w.players.map _ = w.players.map (fun p => p) := List.map_congr_left h0
      _ = w.players := List.map_id' w.players
  | cons m ms ih =>
    rw [List.map_cons, List.nodup_cons] at hnd
    show (commitMoves ms (commitStep w m)).players = _
    rw [ih (commitStep w m) hnd.2]
    unfold commitStep
    dsimp only
    rw [List.map_map]
    apply List.map_congr_left
    intro p _
    simp only [Function.comp]
    by_cases hid : p.id = m.playerId
    · have hif : (if p.id = m.playerId then applyMove m p else p) = applyMove m p :=
        if_pos hid
      simp only [hif]
      have h1 : ms.find? (fun mv => decide (mv.playerId = (applyMove m p).id)) = none := by
        rw [List.find?_eq_none]
        intro x hx
        simp only [decide_eq_true_eq]
        rw [applyMove_id, hid]
        intro hxe
        exact hnd.1 (hxe ▸ List.mem_map_of_mem (·.playerId) hx)
      rw [h1]
      have h2 : (m :: ms).find? (fun mv => decide (mv.playerId = p.id)) = some m :=
        List.find?_cons_of_pos _ (by simp [hid])
      rw [h2]
    · have hif : (if p.id = m.playerId then applyMove m p else p) = p := if_neg hid
      simp only [hif]
      have h2 : (m :: ms).find? (fun mv => decide (mv.playerId = p.id)) =
          ms.find? (fun mv => decide (mv.playerId = p.id)) :=
        List.find?_cons_of_neg _ (by simp; intro h; exact hid h.symm)
      rw [h2]

theorem headPass_map_playerId (ms : List Move) :
    (headPass ms).map (·.playerId) = ms.map (·.playerId) := by
  unfold headPass
  rw [List.map_map]
  apply List.map_congr_left
  intro m _
  by_cases hc : 2 ≤ headCount ms m.nextHead
  · simp [hc, markHead]
  · simp [hc]

theorem liveMoves_map_playerId (foods : List Pos) (ps : List Player) :
    ((ps.filter (·.alive)).map (createMove foods)).map (·.playerId) =
      (ps.filter (·.alive)).map (·.id) := by
  rw [List.map_map]
  apply List.map_congr_left
  intro p _
  rfl

theorem nodup_filter_map_id {ps : List Player} (h : (ps.map (·.id)).Nodup) :
    ((ps.filter (·.alive)).map (·.id)).Nodup :=
  List.Sublist.nodup (List.Sublist.map _ (List.filter_sublist ps)) h

theorem tick_eq (rngA rngB : Nat → Nat → Nat × Nat) (w : World) :
    tick rngA rngB w =
      if ((((ensureFood rngA w).players.filter (·.alive)).map
            (createMove (ensureFood rngA w).foods)).isEmpty) = true
      then ensureFood rngA w
      else ensureFood rngB
        (commitMoves
          (resolveMoves (ensureFood rngA w).players
            (buildBodyOccupancy (ensureFood rngA w).players)
            (((ensureFood rngA w).players.filter (·.alive)).map
              (createMove (ensureFood rngA w).foods)))
          (ensureFood rngA w)) := rfl

theorem killPlayer_alive (p : Player) : (killPlayer p).alive = false := by
  unfold killPlayer
  by_cases h : (!p.alive) = true
  · rw [if_pos h]
    simpa using h
  · rw [if_neg h]

theorem advancePlayer_alive (m : Move) (p : Player) :
    (advancePlayer m p).alive = p.alive := by
  unfold advancePlayer
  by_cases h : m.willEat = true
  · rw [if_pos h]
  · rw [if_neg h]

theorem advancePlayer_facts (m : Move) (p : Player) :
    (m.willEat = true →
      (advancePlayer m p).snake.length = p.snake.length + 1 ∧
      (advancePlayer m p).score = p.score + 1 ∧
      (advancePlayer m p).snake = m.nextHead :: p.snake) ∧
    (m.willEat = false →
      (advancePlayer m p).snake.length = p.snake.length ∧
      (advancePlayer m p).score = p.score ∧
      (advancePlayer m p).snake = (m.nextHead :: p.snake).dropLast) := by
  constructor
  · intro hw
    unfold advancePlayer
    rw [if_pos hw]
    exact ⟨by simp, rfl, rfl⟩
  · intro hw
    unfold advancePlayer
    rw [if_neg (by simp [hw])]
    refine ⟨?_, rfl, rfl⟩
    rw [List.length_dropLast]
    simp

theorem commitMoves_lengthLaw : ∀ (ms : List Move) (w : World), LengthLaw w.players →
    LengthLaw (commitMoves ms w).players := by
  intro ms
  induction ms with
  | nil => intro w h; exact h
  | cons m ms ih =>
    intro w h
    show LengthLaw (commitMoves ms (commitStep w m)).players
    apply ih
    intro p' hp' halive
    unfold commitStep at hp'
    dsimp only at hp'
    rcases List.mem_map.1 hp' with ⟨p, hp, rfl⟩
    by_cases hid : p.id = m.playerId
    · simp only [if_pos hid] at halive ⊢
      unfold applyMove at halive ⊢
      by_cases hd : m.dead = true
      · rw [if_pos hd] at halive
        rw [killPlayer_alive] at halive
        cases halive
      · rw [if_neg hd] at halive ⊢
        have hpal : p.alive = true := by rw [advancePlayer_alive] at halive; exact halive
        have hlaw := h p hp hpal
        by_cases hw : m.willEat = true
        · rcases (advancePlayer_facts m p).1 hw with ⟨h1, h2, _⟩
          rw [h1, h2, hlaw]
          omega
        · have hw' : m.willEat = false := by simpa using hw
          rcases (advancePlayer_facts m p).2 hw' with ⟨h1, h2, _⟩
          rw [h1, h2, hlaw]
    · simp only [if_neg hid] at halive ⊢
      exact h p hp halive

/-- C5: the body-length law `length = score + INITIAL_LENGTH` for alive
participants is preserved by `tick`; moreover the commit of a surviving
move with `willEat = true` prepends the new head and leaves the previous
tail in place (length and score both grow by exactly one), while with
`willEat = false` it prepends the new head and removes exactly the last
element, leaving length and score unchanged. -/
theorem c5_length_law (rngA rngB : Nat → Nat → Nat × Nat) (w : World)
    (h : LengthLaw w.players) :
    LengthLaw (tick rngA rngB w).players ∧
    ∀ (m : Move) (p : Player),
      (m.willEat = true →
        (advancePlayer m p).snake.length = p.snake.length + 1 ∧
        (advancePlayer m p).score = p.score + 1 ∧
        (advancePlayer m p).snake = m.nextHead :: p.snake) ∧
      (m.willEat = false →
        (advancePlayer m p).snake.length = p.snake.length ∧
        (advancePlayer m p).score = p.score ∧
        (advancePlayer m p).snake = (m.nextHead :: p.snake).dropLast) := by
  constructor
  · rw [tick_eq]
    by_cases hemp : ((((ensureFood rngA w).players.filter (·.alive)).map
        (createMove (ensureFood rngA w).foods)).isEmpty) = true
    · rw [if_pos hemp, ensureFood_players]
      exact h
    · rw [if_neg hemp, ensureFood_players]
      apply commitMoves_lengthLaw
      rw [ensureFood_players]
      exact h
  · intro m p
    exact advancePlayer_facts m p

/-- Witness for C5 at the one-snake world. -/
theorem c5_witness : LengthLaw (tick czrng czrng cworld).players :=
  (c5_length_law czrng czrng cworld (by decide)).1

theorem dropLast_cons_cases (a : Pos) (l : List Pos) :
    (a :: l).dropLast = [] ∨ (a :: l).dropLast = a :: l.dropLast := by
  cases l with
  | nil => left; rfl
  | cons b t => right; rfl

theorem resolved_commit_bodiesOK (w1 : World) (foods : List Pos)
    (h1 : DistinctIds w1.players) (h2 : BodiesOK w1.players)
    (h3 : SnakesDisjoint w1.players) :
    BodiesOK (commitMoves
      (resolveMoves w1.players (buildBodyOccupancy w1.players)
        ((w1.players.filter (·.alive)).map (createMove foods))) w1).players := by
  have hids0 : ((((w1.players.filter (·.alive)).map (createMove foods))).map
      (·.playerId)).Nodup := by
    rw [liveMoves_map_playerId]
    exact nodup_filter_map_id h1
  have hids1 : ((wallPass ((w1.players.filter (·.alive)).map (createMove foods))).map
      (·.playerId)).Nodup := by
    rw [wallPass_map_playerId]
    exact hids0
  have hids2 : ((bodyPass w1.players (buildBodyOccupancy w1.players)
      (wallPass ((w1.players.filter (·.alive)).map (createMove foods)))).map
      (·.playerId)).Nodup := by
    rw [forall₂_map_playerId (bodyPass_forall₂ _ _ _)]
    exact hids1
  have hids3 : ((resolveMoves w1.players (buildBodyOccupancy w1.players)
      ((w1.players.filter (·.alive)).map (createMove foods))).map (·.playerId)).Nodup := by
    unfold resolveMoves
    rw [headPass_map_playerId]
    exact hids2
  rw [commitMoves_players _ _ hids3]
  intro p' hp' halive
  rcases List.mem_map.1 hp' with ⟨p, hp, rfl⟩
  cases hfind : (resolveMoves w1.players (buildBodyOccupancy w1.players)
      ((w1.players.filter (·.alive)).map (createMove foods))).find?
      (fun mv => decide (mv.playerId = p.id)) with
  | none =>
    simp only [hfind] at halive ⊢
    exact h2 p hp halive
  | some m3 =>
    simp only [hfind] at halive ⊢
    by_cases hd3 : m3.dead = true
    · unfold applyMove at halive
      rw [if_pos hd3, killPlayer_alive] at halive
      cases halive
    · have hd3' : m3.dead = false := by simpa using hd3
      unfold applyMove at halive ⊢
      rw [if_neg hd3] at halive ⊢
      have hpal : p.alive = true := by rw [advancePlayer_alive] at halive; exact halive
      have hm3pid : m3.playerId = p.id := by simpa using List.find?_some hfind
      have hm3R := List.mem_of_find?_eq_some hfind
      unfold resolveMoves at hm3R
      obtain ⟨hm3in2, _⟩ := headPass_survivor hm3R hd3'
      obtain ⟨hm3in1, hoccFacts⟩ := bodyPass_survivor hids1 hm3in2 hd3'
      obtain ⟨hm3in0, hout⟩ := wallPass_survivor hm3in1 hd3'
      have hbounds : inBounds m3.nextHead := (outOfBounds_false_iff _).1 hout
      obtain ⟨hpb, hpn⟩ := h2 p hp hpal
      have hkey : m3.nextHead ∉ p.snake ∨
          (m3.willEat = false ∧
            ∃ hne : p.snake ≠ [], m3.nextHead = p.snake.getLast hne) := by
        by_cases hmem : m3.nextHead ∈ p.snake
        · right
          rcases List.mem_iff_get?.1 hmem with ⟨i, hik⟩
          have hocc : buildBodyOccupancy w1.players m3.nextHead = some ⟨p.id, i⟩ :=
            buildBodyOccupancy_some h1 (fun q hq ha => (h2 q hq ha).2) h3 hp hpal hik
          rcases hoccFacts with hnone | ⟨o, q, ho, hqf, hti, himp⟩
          · rw [hnone] at hocc; cases hocc
          · rw [ho] at hocc
            injection hocc with hocc
            have ho1 : o.playerId = p.id := by rw [hocc]
            have ho2 : o.index = i := by rw [hocc]
            rw [ho1] at hqf
            rw [find?_id_unique h1 hp] at hqf
            injection hqf with hqf
            have hqp : q = p := hqf.symm
            rw [hqp, ho2] at hti
            have hlen : 0 < p.snake.length := List.length_pos.2 (List.ne_nil_of_mem hmem)
            have hi : i = p.snake.length - 1 := by omega
            have hwillEat : m3.willEat = false := himp (by rw [ho1, hm3pid])
            refine ⟨hwillEat, List.ne_nil_of_mem hmem, ?_⟩
            rcases List.get?_eq_some.1 hik with ⟨hilt, higet⟩
            rw [List.getLast_eq_get]
            have hfin : (⟨i, hilt⟩ : Fin p.snake.length) =
                ⟨p.snake.length - 1, by omega⟩ := Fin.ext (by simpa using hi)
            exact higet.symm.trans (congrArg p.snake.get hfin)
        · left; exact hmem
      by_cases hwe : m3.willEat = true
      · rcases (advancePlayer_facts m3 p).1 hwe with ⟨_, _, hsnake⟩
        rw [hsnake]
        have hnotmem : m3.nextHead ∉ p.snake := by
          rcases hkey with h | ⟨hfalse, _⟩
          · exact h
          · rw [hwe] at hfalse; cases hfalse
        constructor
        · intro c hc
          rcases List.mem_cons.1 hc with rfl | hc
          · exact hbounds
          · exact hpb c hc
        · exact List.nodup_cons.2 ⟨hnotmem, hpn⟩
      · have hwe' : m3.willEat = false := by simpa using hwe
        rcases (advancePlayer_facts m3 p).2 hwe' with ⟨_, _, hsnake⟩
        rw [hsnake]
        rcases dropLast_cons_cases m3.nextHead p.snake with hdl | hdl
        · rw [hdl]
          exact ⟨fun c hc => absurd hc (List.not_mem_nil c), List.nodup_nil⟩
        · rw [hdl]
          have hndrop : p.snake.dropLast.Nodup :=
            List.Sublist.nodup (List.dropLast_sublist _) hpn
          have hnotmem : m3.nextHead ∉ p.snake.dropLast := by
            rcases hkey with h | ⟨_, hne, hlast⟩
            · intro hc
              exact h (List.Sublist.subset (List.dropLast_sublist _) hc)
            · rw [hlast]
              intro hc
              have happ := List.dropLast_append_getLast hne
              have hnd := hpn
              rw [← happ] at hnd
              rcases List.nodup_append.1 hnd with ⟨_, _, hdisj⟩
              exact hdisj hc (by simp)
          constructor
          · intro c hc
            rcases List.mem_cons.1 hc with rfl | hc
            · exact hbounds
            · exact hpb c (List.Sublist.subset (List.dropLast_sublist _) hc)
          · exact List.nodup_cons.2 ⟨hnotmem, hndrop⟩

/-- C6: a tick preserves well-formedness of every alive body: all
segments stay inside `[0,GRID_COLS) × [0,GRID_ROWS)` and no two segments
of one participant's body coincide.  The hypotheses are the standing
invariants of the world before the tick: distinct ids (a `Map`
guarantee), well-formed bodies, and pairwise disjoint alive bodies. -/
theorem c6_bodies_wellformed (rngA rngB : Nat → Nat → Nat × Nat) (w : World)
    (h1 : DistinctIds w.players) (h2 : BodiesOK w.players)
    (h3 : SnakesDisjoint w.players) :
    BodiesOK (tick rngA rngB w).players := by
  rw [tick_eq]
  by_cases hemp : ((((ensureFood rngA w).players.filter (·.alive)).map
      (createMove (ensureFood rngA w).foods)).isEmpty) = true
  · rw [if_pos hemp, ensureFood_players]
    exact h2
  · rw [if_neg hemp, ensureFood_players rngB]
    have e1 : DistinctIds (ensureFood rngA w).players := by
      rw [ensureFood_players]; exact h1
    have e2 : BodiesOK (ensureFood rngA w).players := by
      rw [ensureFood_players]; exact h2
    have e3 : SnakesDisjoint (ensureFood rngA w).players := by
      rw [ensureFood_players]; exact h3
    exact resolved_commit_bodiesOK (ensureFood rngA w) (ensureFood rngA w).foods e1 e2 e3

/-- Witness for C6 at the one-snake world. -/
theorem c6_witness : BodiesOK (tick czrng czrng cworld).players :=
  c6_bodies_wellformed czrng czrng cworld (by decide) (by decide) (by decide)

/-! ### Spawning -/

theorem spawnFoodAux_some {rnd : Nat → Nat × Nat} {w : World} :
    ∀ (fuel k : Nat) (c : Pos), spawnFoodAux rnd w fuel k = some c →
    inBounds c ∧ c ∉ occupiedCells w := by
  intro fuel
  induction fuel with
  | zero => intro k c h; exact Option.noConfusion h
  | succ fuel ih =>
    intro k c h
    have hstep : spawnFoodAux rnd w (fuel + 1) k =
        (if (⟨((rnd k).1 % GRID_COLS : Nat), ((rnd k).2 % GRID_ROWS : Nat)⟩ : Pos) ∈
            occupiedCells w
         then spawnFoodAux rnd w fuel (k + 1)
         else some ⟨((rnd k).1 % GRID_COLS : Nat), ((rnd k).2 % GRID_ROWS : Nat)⟩) := rfl
    rw [hstep] at h
    by_cases hocc : (⟨((rnd k).1 % GRID_COLS : Nat), ((rnd k).2 % GRID_ROWS : Nat)⟩ : Pos) ∈
        occupiedCells w
    · rw [if_pos hocc] at h
      exact ih (k + 1) c h
    · rw [if_neg hocc] at h
      injection h with h
      subst h
      refine ⟨⟨?_, ?_, ?_, ?_⟩, hocc⟩
      · exact Int.natCast_nonneg _
      · show ((((rnd k).1 % GRID_COLS : Nat) : Int)) < (GRID_COLS : Int)
        have := Nat.mod_lt (rnd k).1 (show 0 < GRID_COLS by decide)
        omega
      · exact Int.natCast_nonneg _
      · show ((((rnd k).2 % GRID_ROWS : Nat) : Int)) < (GRID_ROWS : Int)
        have := Nat.mod_lt (rnd k).2 (show 0 < GRID_ROWS by decide)
        omega

theorem spawnFoodAux_saturated {rnd : Nat → Nat × Nat} {w : World}
    (hsat : ∀ c : Pos, inBounds c → c ∈ occupiedCells w) :
    ∀ (fuel k : Nat), spawnFoodAux rnd w fuel k = none := by
  intro fuel
  induction fuel with
  | zero => intro k; rfl
  | succ fuel ih =>
    intro k
    have hstep : spawnFoodAux rnd w (fuel + 1) k =
        (if (⟨((rnd k).1 % GRID_COLS : Nat), ((rnd k).2 % GRID_ROWS : Nat)⟩ : Pos) ∈
            occupiedCells w
         then spawnFoodAux rnd w fuel (k + 1)
         else some ⟨((rnd k).1 % GRID_COLS : Nat), ((rnd k).2 % GRID_ROWS : Nat)⟩) := rfl
    rw [hstep]
    rw [if_pos (hsat _ ?_)]
    · exact ih (k + 1)
    · refine ⟨Int.natCast_nonneg _, ?_, Int.natCast_nonneg _, ?_⟩
      · show ((((rnd k).1 % GRID_COLS : Nat) : Int)) < (GRID_COLS : Int)
        have := Nat.mod_lt (rnd k).1 (show 0 < GRID_COLS by decide)
        omega
      · show ((((rnd k).2 % GRID_ROWS : Nat) : Int)) < (GRID_ROWS : Int)
        have := Nat.mod_lt (rnd k).2 (show 0 < GRID_ROWS by decide)
        omega

theorem ensureFoodAux_spec (rng : Nat → Nat → Nat × Nat) :
    ∀ (fuel i : Nat) (w : World), w.foods.length ≤ FOOD_TARGET →
    FOOD_TARGET ≤ fuel + w.foods.length →
    (ensureFoodAux rng fuel i w).foods.length = FOOD_TARGET ∨
    ∃ j, spawnFood (rng j) (ensureFoodAux rng fuel i w) = none := by
  intro fuel
  induction fuel with
  | zero =>
    intro i w h1 h2
    left
    show w.foods.length = FOOD_TARGET
    omega
  | succ fuel ih =>
    intro i w h1 h2
    have hstep : ensureFoodAux rng (fuel + 1) i w =
        (if w.foods.length < FOOD_TARGET then
          match spawnFood (rng i) w with
          | some c => ensureFoodAux rng fuel (i + 1) { w with foods := w.foods ++ [c] }
          | none => w
        else w) := rfl
    rw [hstep]
    by_cases hlt : w.foods.length < FOOD_TARGET
    · rw [if_pos hlt]
      cases hs : spawnFood (rng i) w with
      | some c =>
        apply ih (i + 1)
        · show (w.foods ++ [c]).length ≤ FOOD_TARGET
          rw [List.length_append]
          simp
          omega
        · show FOOD_TARGET ≤ fuel + (w.foods ++ [c]).length
          rw [List.length_append]
          simp
          omega
      | none =>
        right
        exact ⟨i, hs⟩
    · rw [if_neg hlt]
      left
      omega

/-- The all-food world really is saturated: every in-bounds cell is
occupied. -/
theorem satWorld_saturated : ∀ c : Pos, inBounds c → c ∈ occupiedCells satWorld := by
  intro c hc
  obtain ⟨h1, h2, h3, h4⟩ := hc
  show c ∈ allCells
  unfold allCells
  unfold GRID_COLS at h2 ⊢
  unfold GRID_ROWS at h4 ⊢
  have hx : c.x.toNat ∈ List.range 40 := List.mem_range.2 (by omega)
  have hy : c.y.toNat ∈ List.range 30 := List.mem_range.2 (by omega)
  refine List.mem_flatMap.2 ⟨c.x.toNat, hx, List.mem_map.2 ⟨c.y.toNat, hy, ?_⟩⟩
  rw [Int.toNat_of_nonneg h1, Int.toNat_of_nonneg h3]

set_option maxRecDepth 10000 in
/-- C8 is refuted at a concrete input: in a world with a single food at
the origin and 1199 free cells, a random stream that always draws the
origin makes `spawnFood` return `none` (despite free cells) and leaves
`ensureFood` below the target count. -/
theorem c8_counterexample :
    inBounds (⟨1, 0⟩ : Pos) ∧ (⟨1, 0⟩ : Pos) ∉ occupiedCells c8World ∧
    spawnFood c8rnd c8World = none ∧
    (ensureFood c8rng c8World).foods.length = 1 ∧ 1 < FOOD_TARGET := by
  decide

/-- C8 (amended): every cell returned by `spawnFood` is in bounds and on
no alive body segment and no existing food; `spawnFood` always returns
`none` on a saturated grid, but it may also return `none` while free
cells exist (when every random candidate is occupied, as in the
counterexample), so the refill only restores `foods.length` to the
target when no `spawnFood` call fails: either the target is reached or
the refill stopped at a failing `spawnFood` call. -/
theorem c8_spawnFood_amended (rnd : Nat → Nat × Nat) (rng : Nat → Nat → Nat × Nat)
    (w : World) :
    (∀ c, spawnFood rnd w = some c → inBounds c ∧ c ∉ occupiedCells w) ∧
    ((∀ c : Pos, inBounds c → c ∈ occupiedCells w) → spawnFood rnd w = none) ∧
    (w.foods.length ≤ FOOD_TARGET →
      (ensureFood rng w).foods.length = FOOD_TARGET ∨
      ∃ j, spawnFood (rng j) (ensureFood rng w) = none) := by
  refine ⟨?_, ?_, ?_⟩
  · intro c h
    exact spawnFoodAux_some _ _ c h
  · intro hsat
    exact spawnFoodAux_saturated hsat _ _
  · intro h1
    exact ensureFoodAux_spec rng FOOD_TARGET 0 w h1 (by omega)

/-- Witness for the amended C8: a found food cell is free, the saturated
world yields `none`, and the refill disjunction holds at the starving
world. -/
theorem c8_witness :
    (inBounds (⟨10, 10⟩ : Pos) ∧ (⟨10, 10⟩ : Pos) ∉ occupiedCells c8World) ∧
    spawnFood c8rnd satWorld = none ∧
    ((ensureFood c8rng c8World).foods.length = FOOD_TARGET ∨
      ∃ j, spawnFood (c8rng j) (ensureFood c8rng c8World) = none) := by
  refine ⟨?_, ?_, ?_⟩
  · exact (c8_spawnFood_amended c8goodRnd c8rng c8World).1 ⟨10, 10⟩ (by decide)
  · exact (c8_spawnFood_amended c8rnd c8rng satWorld).2.1 satWorld_saturated
  · exact (c8_spawnFood_amended c8rnd c8rng c8World).2.2 (by decide)

theorem spawnBody_length (head : Pos) (d : Dir) :
    (spawnBody head d).length = INITIAL_LENGTH := by
  unfold spawnBody
  rw [List.length_map, List.length_range]

theorem spawnPlayerAux_spec (rnd : Nat → Nat × Nat × Nat) (w : World) (p : Player) :
    ∀ (fuel k : Nat) (b : Bool) (p' : Player),
    spawnPlayerAux rnd w p fuel k = (b, p') →
    (b = true →
      p'.alive = true ∧ p'.score = 0 ∧
      p'.id = p.id ∧ p'.best = p.best ∧ p'.deaths = p.deaths ∧
      p'.lastInputAt = p.lastInputAt ∧
      ∃ d head, p'.direction = some d ∧ p'.pendingDirection = some d ∧
        p'.snake = spawnBody head d ∧
        p'.snake.length = INITIAL_LENGTH ∧
        ∀ c ∈ p'.snake, inBounds c ∧ c ∉ occupiedCells w) ∧
    (b = false → p' = p) := by
  intro fuel
  induction fuel with
  | zero =>
    intro k b p' h
    injection h with h1 h2
    subst h1
    subst h2
    exact ⟨fun hb => Bool.noConfusion hb, fun _ => rfl⟩
  | succ fuel ih =>
    intro k b p' h
    have hstep : spawnPlayerAux rnd w p (fuel + 1) k =
        (if (spawnBody
              (⟨((rnd k).2.1 % GRID_COLS : Nat), ((rnd k).2.2 % GRID_ROWS : Nat)⟩ : Pos)
              ([Dir.up, Dir.right, Dir.down, Dir.left].getD ((rnd k).1 % 4) .up)).all
              (fun c => !outOfBounds c && !decide (c ∈ occupiedCells w)) = true
         then (true,
          { p with
            snake := spawnBody
              (⟨((rnd k).2.1 % GRID_COLS : Nat), ((rnd k).2.2 % GRID_ROWS : Nat)⟩ : Pos)
              ([Dir.up, Dir.right, Dir.down, Dir.left].getD ((rnd k).1 % 4) .up)
            direction := some ([Dir.up, Dir.right, Dir.down, Dir.left].getD ((rnd k).1 % 4) .up)
            pendingDirection := some ([Dir.up, Dir.right, Dir.down, Dir.left].getD ((rnd k).1 % 4) .up)
            alive := true
            score := 0 })
         else spawnPlayerAux rnd w p fuel (k + 1)) := rfl
    rw [hstep] at h
    by_cases hcond : (spawnBody
        (⟨((rnd k).2.1 % GRID_COLS : Nat), ((rnd k).2.2 % GRID_ROWS : Nat)⟩ : Pos)
        ([Dir.up, Dir.right, Dir.down, Dir.left].getD ((rnd k).1 % 4) .up)).all
        (fun c => !outOfBounds c && !decide (c ∈ occupiedCells w)) = true
    · rw [if_pos hcond] at h
      injection h with h1 h2
      subst h1
      subst h2
      refine ⟨fun _ => ?_, fun hb => Bool.noConfusion hb⟩
      refine ⟨rfl, rfl, rfl, rfl, rfl, rfl, ?_⟩
      refine ⟨[Dir.up, Dir.right, Dir.down, Dir.left].getD ((rnd k).1 % 4) .up,
        ⟨((rnd k).2.1 % GRID_COLS : Nat), ((rnd k).2.2 % GRID_ROWS : Nat)⟩,
        rfl, rfl, rfl, ?_, ?_⟩
      · exact spawnBody_length _ _
      · intro c hc
        have hall := List.all_eq_true.1 hcond c hc
        rw [Bool.and_eq_true] at hall
        constructor
        · rw [← outOfBounds_false_iff]
          simpa using hall.1
        · simpa using hall.2
    · rw [if_neg hcond] at h
      exact ih (k + 1) b p' h

/-- C9: `spawnPlayer` succeeds only by installing a body of exactly
`INITIAL_LENGTH` contiguous cells laid out behind the chosen head cell
against the chosen facing direction (the shape `spawnBody head d`, whose
`i`-th cell is `head - delta(d) * i`), with every cell in bounds and on
no alive body segment and no food, and it sets `alive := true`,
`score := 0`, facing and pending facing to the chosen direction, touching
no other field; after exhausting the attempt budget it returns failure
with the participant exactly as before the call. -/
theorem c9_spawnPlayer_spec (rnd : Nat → Nat × Nat × Nat) (w : World) (p : Player)
    (b : Bool) (p' : Player) (h : spawnPlayer rnd w p = (b, p')) :
    (b = true →
      p'.alive = true ∧ p'.score = 0 ∧
      p'.id = p.id ∧ p'.best = p.best ∧ p'.deaths = p.deaths ∧
      p'.lastInputAt = p.lastInputAt ∧
      ∃ d head, p'.direction = some d ∧ p'.pendingDirection = some d ∧
        p'.snake = spawnBody head d ∧
        p'.snake.length = INITIAL_LENGTH ∧
        ∀ c ∈ p'.snake, inBounds c ∧ c ∉ occupiedCells w) ∧
    (b = false → p' = p) :=
  spawnPlayerAux_spec rnd w p MAX_SPAWN_ATTEMPTS 0 b p' h

/-- Witness for C9: with randomness placing the head at `(20,15)` facing
right in the healthy world, the dead participant spawns alive with score
zero; with no free placement ever drawn the failure case applies. -/
theorem c9_witness :
    (spawnPlayer c9rng cworld deadPlayer).2.alive = true ∧
    (spawnPlayer c9rng cworld deadPlayer).2.score = 0 := by
  have h := (c9_spawnPlayer_spec c9rng cworld deadPlayer
    (spawnPlayer c9rng cworld deadPlayer).1 (spawnPlayer c9rng cworld deadPlayer).2
    rfl).1 (by decide)
  exact ⟨h.1, h.2.1⟩

/-- C10: `handleInput` leaves the whole world (every field of every
participant, and the food list) unchanged when the id is unknown, the
participant is not alive, the direction key is not one of the four known
keys, or the key's direction is the exact opposite of the participant's
current facing; otherwise it buffers the direction into the participant's
`pendingDirection` (stamping `lastInputAt`), leaving every other
participant and every other field unchanged. -/
theorem c10_handleInput_spec (w : World) (sid : Nat) (key : String) (t : Nat) :
    (w.players.find? (fun p => decide (p.id = sid)) = none → handleInput w sid key t = w) ∧
    (∀ p, w.players.find? (fun p => decide (p.id = sid)) = some p →
      (p.alive = false → handleInput w sid key t = w) ∧
      (DIRECTIONS key = none → handleInput w sid key t = w) ∧
      (∀ d nd, p.direction = some d → DIRECTIONS key = some nd → isOpposite d nd = true →
        handleInput w sid key t = w) ∧
      (∀ nd, p.alive = true → DIRECTIONS key = some nd →
        (∀ d, p.direction = some d → isOpposite d nd = false) →
        handleInput w sid key t = setPendingDir w sid nd t ∧
        (setPendingDir w sid nd t).foods = w.foods ∧
        (setPendingDir w sid nd t).players = w.players.map (fun q =>
          if q.id = sid then { q with pendingDirection := some nd, lastInputAt := t }
          else q))) := by
  constructor
  · intro hf
    unfold handleInput
    simp only [hf]
  · intro p hf
    refine ⟨?_, ?_, ?_, ?_⟩
    · intro hal
      unfold handleInput
      simp only [hf]
      rw [if_pos (by simp [hal])]
    · intro hdk
      unfold handleInput
      simp only [hf, hdk]
      split <;> rfl
    · intro d nd hdir hdk hop
      unfold handleInput
      simp only [hf, hdk, hdir]
      by_cases hal : (!p.alive) = true
      · rw [if_pos hal]
      · rw [if_neg hal, if_pos hop]
    · intro nd hal hdk hnop
      refine ⟨?_, rfl, rfl⟩
      unfold handleInput
      simp only [hf, hdk]
      rw [if_neg (by simp [hal])]
      cases hdir : p.direction with
      | none => rfl
      | some d =>
        show (if isOpposite d nd = true then w else setPendingDir w sid nd t) =
          setPendingDir w sid nd t
        rw [if_neg (by simp [hnop d hdir])]

/-- Witness for C10: buffering `"left"` for the down-facing snake. -/
theorem c10_witness :
    handleInput cworld 0 "left" 5 = setPendingDir cworld 0 .left 5 := by
  have h := ((c10_handleInput_spec cworld 0 "left" 5).2 cplayer (by decide)).2.2.2
    .left (by decide) (by decide)
    (by intro d hd; cases hd; decide)
  exact h.1

end Snake
